import Mathlib

/-!
# NinSheetMusic-Archiver: verification of the crawl-and-download pipeline

A shallow embedding of `src/main.rs` (the only source file of the
repository).  Pure parsing code is embedded as Lean functions over an
explicit HTML-tree model; the `expect`/`unwrap` panics of the Rust code
are modelled as `Option.none`; the channel + worker-pool of `main` is
embedded as a labelled transition system.

External library capabilities (HTML entity decoding, filename
sanitization, DOM queries, HTTP transport, filesystem writes) are
modelled from the spec's external-interface contracts (spec §1, §6);
the repository's own logic is translated from the source.
-/

/-! ## String utilities -/

/-- Modelled from the spec: the external HTML-entity-decoding capability
(`html_escape::decode_html_entities`, spec §1/§6 "inner text of element,
with HTML entities decoded").  A single left-to-right pass that decodes
the common named entities used in this development; characters that do
not begin a recognized entity are copied through unchanged. -/
def decodeEntityChars : List Char → List Char
  | [] => []
  | '&' :: 'a' :: 'm' :: 'p' :: ';' :: rest => '&' :: decodeEntityChars rest
  | '&' :: 'l' :: 't' :: ';' :: rest => '<' :: decodeEntityChars rest
  | '&' :: 'g' :: 't' :: ';' :: rest => '>' :: decodeEntityChars rest
  | '&' :: 'q' :: 'u' :: 'o' :: 't' :: ';' :: rest => '"' :: decodeEntityChars rest
  | c :: rest => c :: decodeEntityChars rest

/-- String wrapper for `decodeEntityChars`, the model of
`html_escape::decode_html_entities`. -/
def decodeHtmlEntities (s : String) : String := ⟨decodeEntityChars s.data⟩

/-- Modelled from the spec: the external filesystem path sanitization
utility (`sanitize_filename_reader_friendly::sanitize`, spec §1/§6).
The spec fixes no exact character set, only that every persisted name
passes through it; we keep alphanumerics, spaces, dots, dashes and
underscores and drop everything else. -/
def sanitize (s : String) : String :=
  ⟨s.data.filter (fun c =>
    c.isAlphanum || c == Char.ofNat 32 || c == '.' || c == '-' || c == '_')⟩

/-- Decimal value of a digit list, most significant first (the
accumulator loop Rust's integer `FromStr` performs). -/
def digitsToNat (l : List Char) : Nat :=
  l.foldl (fun a c => a * 10 + (c.toNat - 48)) 0

/-- Model of Rust's `str::parse::<i32>`: an optional leading sign,
then one or more ASCII digits and nothing else, with the resulting
value required to fit in a signed 32-bit integer; anything else is a
parse error (`none`). -/
def parseI32core (sign : Int) (ds : List Char) : Option Int :=
  if ds.isEmpty then none
  else if ds.all Char.isDigit then
    if -(2 ^ 31) ≤ sign * (digitsToNat ds : Nat) ∧ sign * (digitsToNat ds : Nat) ≤ 2 ^ 31 - 1
    then some (sign * (digitsToNat ds : Nat)) else none
  else none

/-- The sign handling of Rust's integer `FromStr`: an optional leading
sign character, then the digit run. -/
def parseI32 (s : String) : Option Int :=
  match s.data with
  | '+' :: rest => parseI32core 1 rest
  | '-' :: rest => parseI32core (-1) rest
  | cs => parseI32core 1 cs

/-- Model of the Rust byte-slice `&s[n..]` on a UTF-8 string, at the
level of a character list: `none` models the panic when `n` exceeds the
byte length or falls inside a multi-byte character. -/
def sliceFromBytes : List Char → Nat → Option (List Char)
  | l, 0 => some l
  | [], _ + 1 => none
  | c :: rest, n + 1 =>
      if c.utf8Size ≤ n + 1 then sliceFromBytes rest (n + 1 - c.utf8Size) else none

/-- The id-attribute processing of `Sheet::parse` (main.rs line 93):
`li.attributes().id().unwrap().as_utf8_str()[5..].parse::<i32>().unwrap()`.
`none` models either panic (slice out of bounds, or `parse` failure). -/
def parseSheetIdAttr (s : String) : Option Int :=
  (sliceFromBytes s.data 5).bind (fun r => parseI32 ⟨r⟩)

/-! ## HTML document model

The Document Query Capability of spec §6, modelled as a tree of
elements and text nodes.  `HForest` is a specialised list so that the
mutual recursion over the tree stays structural (and therefore
kernel-evaluable on the concrete fixtures used below). -/

mutual
inductive HNode where
  | elem (tag : String) (attrs : List (String × Option String)) (children : HForest)
  | text (s : String)
deriving Repr, DecidableEq
inductive HForest where
  | nil
  | cons (h : HNode) (t : HForest)
deriving Repr, DecidableEq
end

/-- Attribute lookup: the model of tl's `attributes().get(name)`, which
yields `none` when the attribute is absent and `some none` when it is
present but valueless. -/
def getAttrRaw (attrs : List (String × Option String)) (k : String) : Option (Option String) :=
  (attrs.find? (fun p => p.1 == k)).map Prod.snd

/-- Split a character list on spaces, keeping the fields in order (the
behavior of splitting a class attribute value on the space separator). -/
def splitSpacesAux : List Char → List Char → List String
  | [], acc => [⟨acc.reverse⟩]
  | c :: rest, acc =>
      if c == Char.ofNat 32 then ⟨acc.reverse⟩ :: splitSpacesAux rest []
      else splitSpacesAux rest (c :: acc)

/-- The class list of an element: its `class` attribute split on spaces. -/
def classListOf (attrs : List (String × Option String)) : List String :=
  match (getAttrRaw attrs "class").join with
  | some v => splitSpacesAux v.data []
  | none => []

/-- The simple CSS selectors the source uses: a bare tag name (`h3`), a
tag with a class (`li.tableList-row--sheet`), a tag with a required
attribute (`a[title]`, `a[href]`), and a bare class
(`get_elements_by_class_name`). -/
inductive Sel where
  | tagOnly (t : String)
  | tagClass (t c : String)
  | tagAttr (t a : String)
  | anyClass (c : String)

/-- Whether an element with tag `t` and attributes `attrs` matches a
selector. -/
def matchesSel (t : String) (attrs : List (String × Option String)) : Sel → Bool
  | .tagOnly tn => t == tn
  | .tagClass tn c => t == tn && (classListOf attrs).contains c
  | .tagAttr tn a => t == tn && (getAttrRaw attrs a).isSome
  | .anyClass c => (classListOf attrs).contains c

mutual
/-- Concatenated raw text of a node's subtree (tl's `inner_text`
before entity decoding). -/
def innerText : HNode → String
  | .text s => s
  | .elem _ _ cs => innerTexts cs
/-- Concatenated raw text of a forest. -/
def innerTexts : HForest → String
  | .nil => ""
  | .cons n t => innerText n ++ innerTexts t
end

mutual
/-- All element nodes of a subtree (including its root) matching a
selector, in document (pre-)order: the model of tl's `query_selector`
iteration. -/
def collect (s : Sel) : HNode → List HNode
  | .text _ => []
  | .elem t a cs =>
      (if matchesSel t a s then [HNode.elem t a cs] else []) ++ collectForest s cs
/-- All matching element nodes of a forest, in document order. -/
def collectForest (s : Sel) : HForest → List HNode
  | .nil => []
  | .cons n t => collect s n ++ collectForest s t
end

mutual
/-- Every node of a subtree in pre-order, text nodes included: the
model of tl's flat `dom.nodes()` list. -/
def flattenNode : HNode → List HNode
  | .text s => [HNode.text s]
  | .elem t a cs => HNode.elem t a cs :: flattenForest cs
/-- Every node of a forest in pre-order. -/
def flattenForest : HForest → List HNode
  | .nil => []
  | .cons n t => flattenNode n ++ flattenForest t
end

/-- The attributes of a node (`[]` for a text node). -/
def attrsOf : HNode → List (String × Option String)
  | .elem _ a _ => a
  | .text _ => []

/-- The children of a node (`.nil` for a text node). -/
def childrenOf : HNode → HForest
  | .elem _ _ cs => cs
  | .text _ => .nil

/-- Matching descendants of a node, in document order: the model of
`HTMLTag::query_selector` (which searches the tag's contents). -/
def elemQuery (n : HNode) (s : Sel) : List HNode :=
  collectForest s (childrenOf n)

/-! ## Data model (main.rs lines 13-44) -/

/-- The closed format enumeration (main.rs lines 13-18); the derived
`Display` prints the variant name, `EnumIter` iterates in declaration
order. -/
inductive SheetFormat where
  | PDF
  | MID
  | MUS
deriving DecidableEq, Repr

/-- The string the derived `Display` implementation produces. -/
def fmtName : SheetFormat → String
  | .PDF => "PDF"
  | .MID => "MID"
  | .MUS => "MUS"

/-- `SheetFormat::iter()` of the derived `EnumIter`: declaration order. -/
def formatsList : List SheetFormat := [.PDF, .MID, .MUS]

/-- Model of Rust's `str::to_lowercase` on the ASCII names involved. -/
def toLowerStr (s : String) : String := ⟨s.data.map Char.toLower⟩

/-- Model of the `Display` of an `i32` (decimal, minus sign when
negative). -/
def intToStr (i : Int) : String :=
  if i < 0 then "-" ++ Nat.repr i.natAbs else Nat.repr i.natAbs

/-- `struct Sheet` (main.rs lines 34-39). -/
structure Sheet where
  name : String
  arrangers : List String
  id : Int
deriving DecidableEq, Repr

/-- `struct Game` (main.rs lines 27-32). -/
structure Game where
  name : String
  system : String
  sheets : List Sheet
deriving DecidableEq, Repr

/-- `struct Serie` (main.rs lines 20-25). -/
structure Serie where
  name : String
  url : String
  games : List Game
deriving DecidableEq, Repr

/-- `struct QueuedDownload` (main.rs lines 41-44); the path is kept as
a string. -/
structure QueuedDownload where
  path : String
  sheet : Sheet
deriving DecidableEq, Repr

/-! ## Parsing (main.rs lines 46-141) -/

/-- `Serie::parse` (main.rs lines 61-70): the name is the decoded inner
text of the anchor, the url is the href concatenated onto the site
origin; `none` models the `unwrap` panic when the href is absent (and
the `as_tag().unwrap()` at the call site for a non-element node). -/
def serieParse : HNode → Option Serie
  | .elem _ attrs cs =>
      ((getAttrRaw attrs "href").join).map (fun href =>
        ⟨decodeHtmlEntities (innerTexts cs),
         "https://www.ninsheetmusic.org" ++ href, []⟩)
  | .text _ => none

/-- `Sheet::parse` (main.rs lines 92-105).  `none` models any of its
`unwrap` panics: missing or valueless id attribute, failing id slice or
integer parse, missing title cell, missing arranger cell. -/
def sheetParse (li : HNode) : Option Sheet := do
  let idV ← (getAttrRaw (attrsOf li) "id").join
  let id ← parseSheetIdAttr idV
  let titleEl ← (elemQuery li (.tagClass "div" "tableList-cell--sheetTitle")).head?
  let arrEl ← (elemQuery li (.tagClass "div" "tableList-cell--sheetArranger")).head?
  let arrangers := (elemQuery arrEl (.tagAttr "a" "href")).map
    (fun a => decodeHtmlEntities (innerText a))
  pure ⟨decodeHtmlEntities (innerText titleEl), arrangers, id⟩

/-- `Game::parse` (main.rs lines 74-89).  `none` models its `unwrap`
panics: no `h3` heading, no `a[title]` anchor, a valueless `title`
attribute, or any sheet row whose parse panics. -/
def gameParse (sec : HNode) : Option Game := do
  let h3 ← (elemQuery sec (.tagOnly "h3")).head?
  let consoleA ← (elemQuery sec (.tagAttr "a" "title")).head?
  let system ← (getAttrRaw (attrsOf consoleA) "title").join
  let sheets ← (elemQuery sec (.tagClass "li" "tableList-row--sheet")).mapM sheetParse
  pure ⟨decodeHtmlEntities (innerText h3), decodeHtmlEntities system, sheets⟩

/-- The anchor filter of `fetch_series` (main.rs lines 130-136): an
element node tagged `a` whose `href` attribute is present with a value
that starts with the series path and contains no fragment marker. -/
def qualifies : HNode → Bool
  | .elem t attrs _ =>
      t == "a" &&
        (match (getAttrRaw attrs "href").join with
         | some h =>
             List.isPrefixOf ("/browse/series/".data) h.data && !(h.data.contains '#')
         | none => false)
  | .text _ => false

/-- `fetch_series` (main.rs lines 122-141), after the page has been
fetched and parsed into a node list: filter the flat node list and
parse every surviving anchor into a `Serie`. -/
def fetch_series (doc : HForest) : Option (List Serie) :=
  ((flattenForest doc).filter qualifies).mapM serieParse

/-- `Serie::populate_games` (main.rs lines 47-59), after the page has
been fetched: every element with class `game`, parsed in document
order. -/
def populateGames (doc : HForest) : Option (List Game) :=
  (collectForest (.anyClass "game") doc).mapM gameParse

/-! ## Sheet downloader (main.rs lines 107-119) -/

/-- `Sheet::get_download_url` (main.rs lines 107-109):
`format!` of the origin, the lowercased `Display` name of the format
and the sheet id. -/
def get_download_url (sh : Sheet) (f : SheetFormat) : String :=
  "https://www.ninsheetmusic.org/download/" ++ toLowerStr (fmtName f) ++ "/" ++ intToStr sh.id

/-- The file name `Sheet::download` builds (main.rs line 112):
sanitized sheet name, a dot, the lowercased format name. -/
def sheetFileName (sh : Sheet) (f : SheetFormat) : String :=
  sanitize sh.name ++ "." ++ toLowerStr (fmtName f)

/-- Model of `Path::join` for the paths the program builds (every
folder path it constructs ends in a slash). -/
def pathJoin (dir file : String) : String :=
  if dir.data.getLast? == some '/' then dir ++ file else dir ++ "/" ++ file

/-- The filesystem, as a path-to-bytes association list. -/
abbrev FileSys : Type := List (String × List UInt8)

/-- `File::create` + `write_all`: create or truncate the file at
`path`, leaving it holding exactly `bytes`.  Writes are prepended and
`fsRead` returns the most recent one, so this is create-or-truncate
observationally. -/
def fsWrite (fs : FileSys) (path : String) (bytes : List UInt8) : FileSys :=
  (path, bytes) :: fs

/-- Contents of the file at `path`, if present. -/
def fsRead (fs : FileSys) (path : String) : Option (List UInt8) :=
  (fs.find? (fun p => p.1 == path)).map Prod.snd

/-- `Sheet::download` (main.rs lines 111-119) with the HTTP transport
abstracted as the already-fetched response body (spec §6): write the
full body to `<folder>/<sanitized name>.<lowercase format>`. -/
def sheetDownload (fs : FileSys) (folder : String) (sh : Sheet) (f : SheetFormat)
    (body : List UInt8) : FileSys :=
  fsWrite fs (pathJoin folder (sheetFileName sh f)) body

/-- One worker's processing of a dequeued item (main.rs lines 186-188):
the three format downloads performed sequentially, in `EnumIter`
order. -/
def processItemFS (fs : FileSys) (folder : String) (sh : Sheet)
    (bodies : SheetFormat → List UInt8) : FileSys :=
  formatsList.foldl (fun acc f => sheetDownload acc folder sh f (bodies f)) fs

/-! ## Enqueuing and the crawl phase (main.rs lines 145-176) -/

/-- The target directory main builds for a game (main.rs line 164). -/
def folderPathFor (s : Serie) (g : Game) : String :=
  "./downloads/" ++ sanitize s.name ++ "/" ++ sanitize g.name ++ "/"

/-- The enqueue loop of main (main.rs lines 158-176): one
`QueuedDownload` sent per sheet, iterating series, games and sheets in
order. -/
def enqueueAll (series : List Serie) : List QueuedDownload :=
  series.flatMap (fun s => s.games.flatMap (fun g =>
    g.sheets.map (fun sh => ⟨folderPathFor s g, sh⟩)))

/-- All sheets of a crawl result, in enqueue order. -/
def allSheets (series : List Serie) : List Sheet :=
  series.flatMap (fun s => s.games.flatMap (fun g => g.sheets))

/-- The crawl phase of main (main.rs lines 152-176) with the HTTP
transport abstracted (spec §6): the root page fetch outcome and a
fetch outcome per series url are inputs.  `none` models a process
abort (`expect` on a network failure, or any parse panic); on success
it returns the fully built work-item queue handed to the workers. -/
def runCrawl (root : Except Unit HForest) (pageOf : String → Except Unit HForest) :
    Option (List QueuedDownload) :=
  match root with
  | .error _ => none
  | .ok doc =>
      match fetch_series doc with
      | none => none
      | some series =>
          (series.mapM (fun (s : Serie) =>
            match pageOf s.url with
            | .error _ => none
            | .ok page => (populateGames page).map (fun gs => Serie.mk s.name s.url gs))).map
            enqueueAll

/-! ## The download queue and worker pool (main.rs lines 156, 178-201)

The channel (`async_channel::unbounded`) and the six worker tasks are
embedded as a labelled transition system.  One fact of the source is
built into the relation: the sender half `tx` is kept alive by `main`
across `join_all`, so the channel is never closed and `rx.recv()` can
never return `Err` — a worker whose receive finds the queue empty
simply stays blocked.  Workers leave the loop only through the
`rx.is_empty()` check after fully processing an item, or by the `?`
early return on a download error. -/

/-- The status of one worker task: blocked in `rx.recv()`, inside the
format loop for an item (with the number of formats already
attempted), exited via the `is_empty` break, or exited via the `?`
error return. -/
inductive WStatus where
  | waiting
  | working (it : Int) (done : Nat)
  | finished
  | aborted
deriving DecidableEq, Repr

/-- The pool state: the queue contents (sheet identifiers, front
first), the per-worker statuses, and the log of fully processed items
with their attempt counts. -/
structure PState where
  queue : List Int
  workers : List WStatus
  processed : List (Int × Nat)
deriving DecidableEq, Repr

/-- Transition labels: which worker moves, and how. -/
inductive PLabel where
  | recv (i : Nat)
  | dl (i : Nat)
  | dlFail (i : Nat)
  | finish (i : Nat)
deriving DecidableEq, Repr

/-- The number of formats a worker downloads per item
(`SheetFormat::iter()` has three elements). -/
def formatCount : Nat := formatsList.length

/-- One scheduler step of the download phase (main.rs lines 180-199).
`recv` hands the queue front to a blocked worker; `dl` is one
successful format download inside the for-loop; `dlFail` is a failing
download, whose `?` makes the worker's task return early; `finish` is
the end of the format loop: the item is logged as processed and the
worker breaks if `rx.is_empty()` and otherwise loops back into
`recv`.  There is no transition for a blocked worker on an empty
queue: the channel is never closed, so `recv` can never error. -/
inductive PStep : PState → PLabel → PState → Prop
  | recv (i : Nat) (it : Int) (q : List Int) (ws : List WStatus) (ps : List (Int × Nat))
      (h : ws.get? i = some .waiting) :
      PStep ⟨it :: q, ws, ps⟩ (.recv i) ⟨q, ws.set i (.working it 0), ps⟩
  | dl (i : Nat) (it : Int) (k : Nat) (q : List Int) (ws : List WStatus)
      (ps : List (Int × Nat)) (h : ws.get? i = some (.working it k)) (hk : k < formatCount) :
      PStep ⟨q, ws, ps⟩ (.dl i) ⟨q, ws.set i (.working it (k + 1)), ps⟩
  | dlFail (i : Nat) (it : Int) (k : Nat) (q : List Int) (ws : List WStatus)
      (ps : List (Int × Nat)) (h : ws.get? i = some (.working it k)) (hk : k < formatCount) :
      PStep ⟨q, ws, ps⟩ (.dlFail i) ⟨q, ws.set i .aborted, ps⟩
  | finish (i : Nat) (it : Int) (q : List Int) (ws : List WStatus) (ps : List (Int × Nat))
      (h : ws.get? i = some (.working it formatCount)) :
      PStep ⟨q, ws, ps⟩ (.finish i)
        ⟨q, ws.set i (if q.isEmpty then .finished else .waiting), ps ++ [(it, formatCount)]⟩

/-- A finite execution: a labelled path through `PStep`. -/
inductive PExec : PState → List PLabel → PState → Prop
  | nil (s : PState) : PExec s [] s
  | cons {s s' s'' : PState} {l : PLabel} {ls : List PLabel}
      (hd : PStep s l s') (tl : PExec s' ls s'') : PExec s (l :: ls) s''

/-- The state when the workers are spawned (main.rs lines 178-199):
the fully enqueued queue, `n` workers all blocked in their first
`recv`, nothing processed. -/
def initState (items : List Int) (n : Nat) : PState :=
  ⟨items, List.replicate n .waiting, []⟩

/-- Whether every worker task has returned, i.e. `join_all` completes
(main.rs line 201). -/
def allTerminatedB (s : PState) : Bool :=
  s.workers.all (fun w => w == .finished || w == .aborted)

/-- A state with no enabled transition at all. -/
def stuckState (s : PState) : Prop := ∀ l s', ¬ PStep s l s'

/-- The identifiers currently held by workers that are inside the
format loop. -/
def inflight (s : PState) : List Int :=
  s.workers.filterMap (fun w => match w with | .working it _ => some it | _ => none)

/-! ## Pool invariants -/

/-- The item a worker currently holds, if any. -/
def wItem : WStatus → Option Int
  | .working it _ => some it
  | _ => none

/-- Conservation quantity of the pool: everything still queued, plus
everything held by a worker, plus everything fully processed. -/
def stateMultiset (s : PState) : Multiset Int :=
  ↑s.queue + ↑(s.workers.filterMap wItem) + ↑(s.processed.map Prod.fst)

theorem filterMapSetMultiset {α β : Type} (f : α → Option β) :
    ∀ (l : List α) (i : Nat) (a b : α), l.get? i = some a →
    ((l.set i b).filterMap f : Multiset β) + ↑(f a).toList
      = (l.filterMap f : Multiset β) + ↑(f b).toList := by
  intro l
  induction l with
  | nil => intro i a b h; simp at h
  | cons hd tl ih =>
    intro i a b h
    cases i with
    | zero =>
      simp only [List.get?] at h
      injection h with h
      subst h
      simp only [List.set, List.filterMap_cons]
      cases hfa : f hd <;> cases hfb : f b
      · simp [hfa, hfb]
      · simp [hfa, hfb, ← Multiset.cons_coe]
        rw [add_comm, Multiset.singleton_add]
      · simp [hfa, hfb, ← Multiset.cons_coe]
        rw [add_comm, Multiset.singleton_add]
      · simp [hfa, hfb, ← Multiset.cons_coe]
        rw [add_comm, Multiset.singleton_add, add_comm, Multiset.singleton_add,
          Multiset.cons_swap]
    | succ n =>
      simp only [List.get?] at h
      simp only [List.set, List.filterMap_cons]
      cases hfh : f hd
      · exact ih n a b h
      · have h2 := ih n a b h
        simp only [← Multiset.cons_coe, Multiset.cons_add]
        rw [h2]

theorem wItemOfBreak (q : List Int) :
    wItem (if q.isEmpty then WStatus.finished else WStatus.waiting) = none := by
  cases q <;> simp [wItem]

/-- A non-failing step conserves `stateMultiset`. -/
theorem stateMultisetStep {s s' : PState} {l : PLabel} (h : PStep s l s')
    (hnf : ∀ i, l ≠ .dlFail i) : stateMultiset s' = stateMultiset s := by
  cases h with
  | recv i it q ws ps hw =>
      have hfm := filterMapSetMultiset wItem ws i .waiting (.working it 0) hw
      simp only [wItem, Option.toList, Multiset.coe_nil, add_zero,
        Multiset.coe_singleton] at hfm
      simp only [stateMultiset, hfm, ← Multiset.cons_coe, ← Multiset.singleton_add]
      abel
  | dl i it k q ws ps hw hk =>
      have hfm := filterMapSetMultiset wItem ws i (.working it k) (.working it (k + 1)) hw
      simp only [wItem, Option.toList, Multiset.coe_singleton] at hfm
      have hfm2 := add_right_cancel hfm
      simp only [stateMultiset, hfm2]
  | dlFail i it k q ws ps hw hk => exact absurd rfl (hnf i)
  | finish i it q ws ps hw =>
      have hfm := filterMapSetMultiset wItem ws i (.working it formatCount)
        (if q.isEmpty then .finished else .waiting) hw
      rw [wItemOfBreak q] at hfm
      simp only [wItem, Option.toList, Multiset.coe_nil, add_zero,
        Multiset.coe_singleton] at hfm
      simp only [stateMultiset, List.map_append, List.map_cons, List.map_nil]
      rw [← hfm]
      simp only [← Multiset.coe_add, ← Multiset.cons_coe, ← Multiset.singleton_add]
      abel

/-- A worker reaches `finished` only by observing an empty queue, and
the queue never grows, so a finished worker witnesses an empty queue. -/
theorem finishedQueueStep {s s' : PState} {l : PLabel} (h : PStep s l s')
    (hinv : WStatus.finished ∈ s.workers → s.queue = []) :
    WStatus.finished ∈ s'.workers → s'.queue = [] := by
  cases h with
  | recv i it q ws ps hw =>
      intro hmem
      rcases List.mem_or_eq_of_mem_set hmem with hin | heq
      · exact absurd (hinv hin) (by simp)
      · exact absurd heq (by simp)
  | dl i it k q ws ps hw hk =>
      intro hmem
      rcases List.mem_or_eq_of_mem_set hmem with hin | heq
      · exact hinv hin
      · exact absurd heq (by simp)
  | dlFail i it k q ws ps hw hk =>
      intro hmem
      rcases List.mem_or_eq_of_mem_set hmem with hin | heq
      · exact hinv hin
      · exact absurd heq (by simp)
  | finish i it q ws ps hw =>
      intro hmem
      rcases List.mem_or_eq_of_mem_set hmem with hin | heq
      · exact hinv hin
      · by_cases hq : q.isEmpty
        · exact List.isEmpty_iff.mp hq
        · rw [if_neg hq] at heq
          exact absurd heq (by simp)

/-- Without failing downloads no worker ever aborts. -/
theorem noAbortedStep {s s' : PState} {l : PLabel} (h : PStep s l s')
    (hnf : ∀ i, l ≠ .dlFail i) (hinv : WStatus.aborted ∉ s.workers) :
    WStatus.aborted ∉ s'.workers := by
  cases h with
  | recv i it q ws ps hw =>
      intro hmem
      rcases List.mem_or_eq_of_mem_set hmem with hin | heq
      · exact hinv hin
      · exact absurd heq (by simp)
  | dl i it k q ws ps hw hk =>
      intro hmem
      rcases List.mem_or_eq_of_mem_set hmem with hin | heq
      · exact hinv hin
      · exact absurd heq (by simp)
  | dlFail i it k q ws ps hw hk => exact absurd rfl (hnf i)
  | finish i it q ws ps hw =>
      intro hmem
      rcases List.mem_or_eq_of_mem_set hmem with hin | heq
      · exact hinv hin
      · by_cases hq : q.isEmpty
        · rw [if_pos hq] at heq; exact absurd heq (by simp)
        · rw [if_neg hq] at heq; exact absurd heq (by simp)

/-- Every processed log entry records `formatCount` attempts. -/
theorem attemptsStep {s s' : PState} {l : PLabel} (h : PStep s l s')
    (hinv : ∀ p ∈ s.processed, p.2 = formatCount) :
    ∀ p ∈ s'.processed, p.2 = formatCount := by
  cases h with
  | recv i it q ws ps hw => exact hinv
  | dl i it k q ws ps hw hk => exact hinv
  | dlFail i it k q ws ps hw hk => exact hinv
  | finish i it q ws ps hw =>
      intro p hp
      rcases List.mem_append.mp hp with hin | heq
      · exact hinv p hin
      · simp at heq; simp [heq]

/-- Steps preserve the number of workers. -/
theorem workersLengthStep {s s' : PState} {l : PLabel} (h : PStep s l s') :
    s'.workers.length = s.workers.length := by
  cases h <;> simp

theorem stateMultisetExec {s s' : PState} {tr : List PLabel} (h : PExec s tr s') :
    (∀ i, PLabel.dlFail i ∉ tr) → stateMultiset s' = stateMultiset s := by
  induction h with
  | nil => intro _; rfl
  | @cons s s' s'' l ls hd tl ih =>
      intro hnf
      have h1 : stateMultiset s' = stateMultiset s :=
        stateMultisetStep hd (fun i he => hnf i (he ▸ List.mem_cons_self l ls))
      have h2 := ih (fun i hi => hnf i (List.mem_cons_of_mem l hi))
      rw [h2, h1]

theorem finishedQueueExec {s s' : PState} {tr : List PLabel} (h : PExec s tr s') :
    (WStatus.finished ∈ s.workers → s.queue = []) →
    WStatus.finished ∈ s'.workers → s'.queue = [] := by
  induction h with
  | nil => intro hi; exact hi
  | @cons s s' s'' l ls hd tl ih => intro hi; exact ih (finishedQueueStep hd hi)

theorem noAbortedExec {s s' : PState} {tr : List PLabel} (h : PExec s tr s') :
    (∀ i, PLabel.dlFail i ∉ tr) → WStatus.aborted ∉ s.workers →
    WStatus.aborted ∉ s'.workers := by
  induction h with
  | nil => intro _ hi; exact hi
  | @cons s s' s'' l ls hd tl ih =>
      intro hnf hi
      exact ih (fun i hmem => hnf i (List.mem_cons_of_mem l hmem))
        (noAbortedStep hd (fun i he => hnf i (he ▸ List.mem_cons_self l ls)) hi)

theorem attemptsExec {s s' : PState} {tr : List PLabel} (h : PExec s tr s') :
    (∀ p ∈ s.processed, p.2 = formatCount) → ∀ p ∈ s'.processed, p.2 = formatCount := by
  induction h with
  | nil => intro hi; exact hi
  | @cons s s' s'' l ls hd tl ih => intro hi; exact ih (attemptsStep hd hi)

theorem workersLengthExec {s s' : PState} {tr : List PLabel} (h : PExec s tr s') :
    s'.workers.length = s.workers.length := by
  induction h with
  | nil => rfl
  | @cons s s' s'' l ls hd tl ih => rw [ih, workersLengthStep hd]

/-! ## Claim theorems -/

/-- C1: the claim states that once the crawler has finished enqueuing
(queue closed and drained) every worker terminates and `join_all`
returns.  The code violates this: `main` keeps the sender `tx` alive
across `join_all`, so the channel is never closed and a worker blocked
in `rx.recv()` on an empty queue has no transition at all.  At the
failing input — six workers spawned with zero enqueued items — the
initial state is already stuck (no step exists) while no worker has
terminated, so `join_all` never returns. -/
theorem c1_workers_deadlock_on_empty_open_queue :
    stuckState (initState [] 6) ∧ allTerminatedB (initState [] 6) = false := by
  constructor
  · intro l s' h
    unfold initState at h
    cases h with
    | dl i it k q ws ps hw hk =>
        have := List.eq_of_mem_replicate (List.get?_mem hw)
        simp at this
    | dlFail i it k q ws ps hw hk =>
        have := List.eq_of_mem_replicate (List.get?_mem hw)
        simp at this
    | finish i it q ws ps hw =>
        have := List.eq_of_mem_replicate (List.get?_mem hw)
        simp at this
  · decide

/-- C2: one `QueuedDownload` is enqueued per crawled sheet, in order
(the enqueue loop), and for any pool execution without download
failures that reaches a state where every worker task has returned,
the processed identifiers are a permutation of the enqueued ones — no
duplicates, no omissions — and every processed item logged exactly
`formatCount` (three) format download attempts. -/
theorem c2_exactly_once_delivery :
    (∀ series : List Serie, (enqueueAll series).map QueuedDownload.sheet = allSheets series)
    ∧ ∀ (items : List Int) (n : Nat) (tr : List PLabel) (s : PState),
        0 < n → items.Nodup → PExec (initState items n) tr s →
        (∀ i, PLabel.dlFail i ∉ tr) → allTerminatedB s = true →
        (s.processed.map Prod.fst).Perm items
          ∧ (s.processed.map Prod.fst).Nodup
          ∧ ∀ p ∈ s.processed, p.2 = formatCount := by
  constructor
  · intro series
    simp [enqueueAll, allSheets, List.map_flatMap, List.map_map, Function.comp_def]
  · intro items n tr s hn hnd hex hnf hterm
    have hnoab : WStatus.aborted ∉ s.workers := by
      refine noAbortedExec hex hnf ?_
      intro hmem
      have := List.eq_of_mem_replicate hmem
      simp at this
    have hallfin : ∀ w ∈ s.workers, w = WStatus.finished := by
      intro w hw
      have hall := List.all_eq_true.mp hterm w hw
      rcases Bool.or_eq_true_iff.mp hall with h1 | h1
      · exact eq_of_beq h1
      · exact absurd ((eq_of_beq h1) ▸ hw) hnoab
    have hinfl : s.workers.filterMap wItem = [] :=
      List.filterMap_eq_nil_iff.mpr (fun w hw => by rw [hallfin w hw]; rfl)
    have hq : s.queue = [] := by
      have hlen : s.workers.length = n := by
        rw [workersLengthExec hex]; simp [initState]
      have hne : s.workers ≠ [] := by
        intro h0; rw [h0] at hlen; simp at hlen; omega
      obtain ⟨w, hw⟩ := List.exists_mem_of_ne_nil s.workers hne
      have hfin : WStatus.finished ∈ s.workers := (hallfin w hw) ▸ hw
      refine finishedQueueExec hex ?_ hfin
      intro hmem
      have := List.eq_of_mem_replicate hmem
      simp at this
    have hms := stateMultisetExec hex hnf
    have hinit : stateMultiset (initState items n) = ↑items := by
      have hrep : (List.replicate n WStatus.waiting).filterMap wItem = [] :=
        List.filterMap_eq_nil_iff.mpr (fun w hw => by rw [List.eq_of_mem_replicate hw]; rfl)
      simp [stateMultiset, initState, hrep]
    have hfin2 : stateMultiset s = ↑(s.processed.map Prod.fst) := by
      simp [stateMultiset, hq, hinfl]
    have hperm : (s.processed.map Prod.fst).Perm items := by
      refine Multiset.coe_eq_coe.mp ?_
      rw [← hfin2, hms, hinit]
    refine ⟨hperm, (hperm.nodup_iff).mpr hnd, attemptsExec hex ?_⟩
    intro p hp
    simp [initState] at hp

/-- Witness for C2: a one-worker pool draining the single-item queue
`[5]` along the concrete schedule recv, three downloads, finish. -/
theorem c2_exactly_once_delivery_witness :
    (0 : Nat) < 1 ∧ ([5] : List Int).Nodup
      ∧ (([((5 : Int), 3)].map Prod.fst).Perm [5]
        ∧ ([((5 : Int), 3)].map Prod.fst).Nodup
        ∧ ∀ p ∈ [((5 : Int), 3)], p.2 = formatCount) := by
  have hex : PExec (initState [5] 1) [.recv 0, .dl 0, .dl 0, .dl 0, .finish 0]
      ⟨[], [.finished], [(5, 3)]⟩ := by
    refine PExec.cons (PStep.recv 0 5 [] [.waiting] [] (by decide)) ?_
    refine PExec.cons (PStep.dl 0 5 0 [] [.working 5 0] [] (by decide) (by decide)) ?_
    refine PExec.cons (PStep.dl 0 5 1 [] [.working 5 1] [] (by decide) (by decide)) ?_
    refine PExec.cons (PStep.dl 0 5 2 [] [.working 5 2] [] (by decide) (by decide)) ?_
    refine PExec.cons (PStep.finish 0 5 [] [.working 5 3] [] (by decide)) ?_
    exact PExec.nil _
  exact ⟨by decide, by decide,
    c2_exactly_once_delivery.2 [5] 1 _ _ (by decide) (by decide) hex
      (by intro i; simp) (by decide)⟩

/-! ## Byte-length and parse-range lemmas (for C3/C10) -/

/-- UTF-8 byte length of a character list. -/
def byteLen : List Char → Nat
  | [] => 0
  | c :: t => c.utf8Size + byteLen t

theorem sliceAppend : ∀ (l r : List Char), sliceFromBytes (l ++ r) (byteLen l) = some r := by
  intro l
  induction l with
  | nil => intro r; cases r <;> rfl
  | cons c t ih =>
      intro r
      have hpos := Char.utf8Size_pos c
      obtain ⟨m, hm⟩ : ∃ m, c.utf8Size + byteLen t = m + 1 :=
        ⟨c.utf8Size + byteLen t - 1, by omega⟩
      show sliceFromBytes (c :: (t ++ r)) (byteLen (c :: t)) = some r
      rw [show byteLen (c :: t) = c.utf8Size + byteLen t from rfl, hm]
      rw [sliceFromBytes]
      rw [if_pos (by omega)]
      rw [show m + 1 - c.utf8Size = byteLen t from by omega]
      exact ih r

theorem sliceShort : ∀ (l : List Char) (n : Nat), byteLen l < n → sliceFromBytes l n = none := by
  intro l
  induction l with
  | nil => intro n hn; cases n with | zero => omega | succ m => rfl
  | cons c t ih =>
      intro n hn
      cases n with
      | zero => simp [byteLen] at hn
      | succ m =>
          rw [sliceFromBytes]
          by_cases hc : c.utf8Size ≤ m + 1
          · rw [if_pos hc]
            exact ih _ (by simp [byteLen] at hn; omega)
          · rw [if_neg hc]

theorem parseI32coreRange (sign : Int) (ds : List Char) (n : Int)
    (h : parseI32core sign ds = some n) : -(2 ^ 31) ≤ n ∧ n ≤ 2 ^ 31 - 1 := by
  unfold parseI32core at h
  split at h
  · exact absurd h (by simp)
  · split at h
    · split at h
      · rename_i hrange
        injection h with h
        omega
      · exact absurd h (by simp)
    · exact absurd h (by simp)

theorem parseI32Range (t : String) (n : Int) (h : parseI32 t = some n) :
    -(2 ^ 31) ≤ n ∧ n ≤ 2 ^ 31 - 1 := by
  unfold parseI32 at h
  split at h <;> exact parseI32coreRange _ _ _ h

theorem sheetIdRange (s : String) (n : Int) (h : parseSheetIdAttr s = some n) :
    -(2 ^ 31) ≤ n ∧ n ≤ 2 ^ 31 - 1 := by
  unfold parseSheetIdAttr at h
  rcases Option.bind_eq_some.mp h with ⟨r, hr, h2⟩
  exact parseI32Range _ _ h2

/-! ## Parse decompositions -/

/-- The shape of a successful `Sheet::parse`: where each field of the
resulting record comes from. -/
theorem sheetParseDecomp (li : HNode) (sh : Sheet) (h : sheetParse li = some sh) :
    ∃ v titleEl arrEl,
      (getAttrRaw (attrsOf li) "id").join = some v
      ∧ parseSheetIdAttr v = some sh.id
      ∧ (elemQuery li (.tagClass "div" "tableList-cell--sheetTitle")).head? = some titleEl
      ∧ (elemQuery li (.tagClass "div" "tableList-cell--sheetArranger")).head? = some arrEl
      ∧ sh.name = decodeHtmlEntities (innerText titleEl)
      ∧ sh.arrangers = (elemQuery arrEl (.tagAttr "a" "href")).map
          (fun a => decodeHtmlEntities (innerText a)) := by
  unfold sheetParse at h
  simp only [Option.bind_eq_bind, Option.pure_def] at h
  rcases Option.bind_eq_some.mp h with ⟨v, hv, h⟩
  rcases Option.bind_eq_some.mp h with ⟨id0, hid, h⟩
  rcases Option.bind_eq_some.mp h with ⟨tEl, ht, h⟩
  rcases Option.bind_eq_some.mp h with ⟨aEl, ha, h⟩
  injection h with h
  subst h
  exact ⟨v, tEl, aEl, hv, hid, ht, ha, rfl, rfl⟩

/-- A sheet row whose id attribute is present but fails the
slice-and-parse produces no `Sheet` (the `unwrap` panics). -/
theorem sheetParseNoneOfBadId (li : HNode) (v : String)
    (hv : (getAttrRaw (attrsOf li) "id").join = some v)
    (hbad : parseSheetIdAttr v = none) :
    sheetParse li = none := by
  unfold sheetParse
  rw [hv]
  simp [hbad]

/-- The shape of a successful `Game::parse`. -/
theorem gameParseDecomp (sec : HNode) (g : Game) (h : gameParse sec = some g) :
    ∃ h3El consoleA sys,
      (elemQuery sec (.tagOnly "h3")).head? = some h3El
      ∧ (elemQuery sec (.tagAttr "a" "title")).head? = some consoleA
      ∧ (getAttrRaw (attrsOf consoleA) "title").join = some sys
      ∧ g.name = decodeHtmlEntities (innerText h3El)
      ∧ g.system = decodeHtmlEntities sys
      ∧ (elemQuery sec (.tagClass "li" "tableList-row--sheet")).mapM sheetParse
          = some g.sheets := by
  unfold gameParse at h
  simp only [Option.bind_eq_bind, Option.pure_def] at h
  rcases Option.bind_eq_some.mp h with ⟨h3El, hh3, h⟩
  rcases Option.bind_eq_some.mp h with ⟨ca, hca, h⟩
  rcases Option.bind_eq_some.mp h with ⟨sys, hsys, h⟩
  rcases Option.bind_eq_some.mp h with ⟨sheets, hsheets, h⟩
  injection h with h
  subst h
  exact ⟨h3El, ca, sys, hh3, hca, hsys, rfl, rfl, hsheets⟩

/-! ## Fixtures -/

/-- A sheet row whose id attribute remainder after the 5-byte slice is
`-7`: not a non-negative integer, yet `parse::<i32>` accepts it. -/
def c3Li : HNode :=
  .elem "li" [("id", some "sheet-7")]
    (.cons (.elem "div" [("class", some "tableList-cell--sheetTitle")]
      (.cons (.text "Title") .nil))
    (.cons (.elem "div" [("class", some "tableList-cell--sheetArranger")] .nil) .nil))

/-- An ordinary sheet row with id remainder `12`. -/
def c10Li : HNode :=
  .elem "li" [("id", some "sheet12")]
    (.cons (.elem "div" [("class", some "tableList-cell--sheetTitle")]
      (.cons (.text "Song") .nil))
    (.cons (.elem "div" [("class", some "tableList-cell--sheetArranger")] .nil) .nil))

/-! ## Claim theorems (parsing) -/

/-- C3 counterexample: the claim says a remainder that is not a
non-negative integer fails with `ParseError` rather than producing a
`Sheet`; on the row `c3Li` (id attribute `sheet-7`) the code instead
produces a `Sheet` whose id is the negative number `-7`. -/
theorem c3_counterexample_negative_id_sheet :
    sheetParse c3Li = some ⟨"Title", [], -7⟩ ∧ ((-7 : Int) < 0) :=
  ⟨by decide, by decide⟩

/-- C3 (amended): the identifier is obtained by dropping the first 5
bytes of the id attribute (their content is not checked) and parsing
the remainder as a signed 32-bit integer; a remainder that does not
parse as an `i32` produces no `Sheet` (the process panics — no
`ParseError` value exists in the code), and a remainder with a leading
minus sign is accepted, yielding a `Sheet` with a negative id. -/
theorem c3_amended_id_slice_and_signed_parse :
    (∀ (p rest : String), byteLen p.data = 5 →
        parseSheetIdAttr (p ++ rest) = parseI32 rest)
    ∧ (∀ (li : HNode) (v : String), (getAttrRaw (attrsOf li) "id").join = some v →
        parseSheetIdAttr v = none → sheetParse li = none)
    ∧ (∀ (li : HNode) (sh : Sheet), sheetParse li = some sh →
        ∃ v, (getAttrRaw (attrsOf li) "id").join = some v ∧ parseSheetIdAttr v = some sh.id)
    ∧ parseSheetIdAttr "sheet-7" = some (-7) := by
  refine ⟨?_, sheetParseNoneOfBadId, ?_, by decide⟩
  · intro p rest hp
    unfold parseSheetIdAttr
    rw [String.data_append, ← hp, sliceAppend]
    rfl
  · intro li sh h
    rcases sheetParseDecomp li sh h with ⟨v, _, _, hv, hid, _⟩
    exact ⟨v, hv, hid⟩

/-- Witness for C3 (amended), at the attribute `sheet42` split as the
5-byte run `sheet` plus remainder `42`, and at the concrete parsed row
`c10Li`. -/
theorem c3_amended_witness :
    byteLen ("sheet".data) = 5
    ∧ parseSheetIdAttr ("sheet" ++ "42") = parseI32 "42"
    ∧ sheetParse c10Li = some ⟨"Song", [], 12⟩
    ∧ ∃ v, (getAttrRaw (attrsOf c10Li) "id").join = some v
        ∧ parseSheetIdAttr v = some (Sheet.mk "Song" [] 12).id :=
  ⟨by decide,
   c3_amended_id_slice_and_signed_parse.1 "sheet" "42" (by decide),
   by decide,
   c3_amended_id_slice_and_signed_parse.2.2.1 c10Li ⟨"Song", [], 12⟩ (by decide)⟩

/-- C10: the id attribute is byte-sliced at fixed index 5 and the
remainder parsed as a signed 32-bit integer: an attribute shorter than
5 bytes aborts (no error value), a leading minus sign is accepted and
stored as a negative id, a remainder outside the signed 32-bit range
fails to parse and aborts, and consequently every `Sheet.id` reaching
the data model lies in the signed 32-bit range. -/
theorem c10_id_slice_and_i32_range :
    (∀ s : String, byteLen s.data < 5 → parseSheetIdAttr s = none)
    ∧ parseSheetIdAttr "sheet-7" = some (-7)
    ∧ parseSheetIdAttr "sheet2147483648" = none
    ∧ parseSheetIdAttr "sheet-2147483648" = some (-2147483648)
    ∧ (∀ (s : String) (n : Int), parseSheetIdAttr s = some n →
        -(2 ^ 31) ≤ n ∧ n ≤ 2 ^ 31 - 1)
    ∧ (∀ (li : HNode) (sh : Sheet), sheetParse li = some sh →
        -(2 ^ 31) ≤ sh.id ∧ sh.id ≤ 2 ^ 31 - 1) := by
  refine ⟨?_, by decide, by decide, by decide, sheetIdRange, ?_⟩
  · intro s h
    unfold parseSheetIdAttr
    rw [sliceShort s.data 5 h]
    rfl
  · intro li sh h
    rcases sheetParseDecomp li sh h with ⟨v, _, _, _, hid, _⟩
    exact sheetIdRange v sh.id hid

/-- Witness for C10: the 2-byte attribute `ab` aborts; the parsed row
`c10Li` carries an in-range id. -/
theorem c10_witness :
    byteLen ("ab".data) < 5
    ∧ parseSheetIdAttr "ab" = none
    ∧ sheetParse c10Li = some ⟨"Song", [], 12⟩
    ∧ (-(2 ^ 31) ≤ (Sheet.mk "Song" [] 12).id ∧ (Sheet.mk "Song" [] 12).id ≤ 2 ^ 31 - 1) :=
  ⟨by decide,
   c10_id_slice_and_i32_range.1 "ab" (by decide),
   by decide,
   c10_id_slice_and_i32_range.2.2.2.2.2 c10Li ⟨"Song", [], 12⟩ (by decide)⟩

/-! ## Claim theorems (series crawl and download URL) -/

/-- The series record the spec describes for a qualifying anchor: name
is the decoded inner text, url is the href resolved against the site's
base origin (the href is path-absolute, so resolution is
concatenation). -/
def anchorToSerie : HNode → Serie
  | .elem _ attrs cs =>
      ⟨decodeHtmlEntities (innerTexts cs),
       "https://www.ninsheetmusic.org" ++ (((getAttrRaw attrs "href").join).getD ""), []⟩
  | .text _ => ⟨"", "", []⟩

theorem serieParseOfQualifies (n : HNode) (hq : qualifies n = true) :
    serieParse n = some (anchorToSerie n) := by
  cases n with
  | text s => simp [qualifies] at hq
  | elem t attrs cs =>
      simp only [qualifies] at hq
      cases hjoin : (getAttrRaw attrs "href").join with
      | none => rw [hjoin] at hq; simp at hq
      | some href =>
          simp only [serieParse, anchorToSerie]
          rw [hjoin]
          simp

theorem mapMEqMapOfForall {α β : Type} (f : α → Option β) (g : α → β) :
    ∀ (l : List α), (∀ n ∈ l, f n = some (g n)) → l.mapM f = some (l.map g) := by
  intro l
  induction l with
  | nil => intro _; rfl
  | cons hd tl ih =>
      intro hall
      rw [List.mapM_cons, hall hd (List.mem_cons_self hd tl),
        ih (fun n hn => hall n (List.mem_cons_of_mem hd hn))]
      rfl

/-- C4: `fetch_series` builds one `Serie` for exactly the anchors of
the flat node list that pass the qualifying filter (tag `a`, href
present, href starting with `/browse/series/`, no `#` anywhere in the
href), in document order — so a page with K qualifying and M
non-qualifying anchors yields exactly K series — and each series has
name equal to the decoded inner text and url equal to the href
concatenated onto the site origin. -/
theorem c4_fetch_series_qualifying_anchors :
    ∀ doc : HForest,
      fetch_series doc = some (((flattenForest doc).filter qualifies).map anchorToSerie) := by
  intro doc
  unfold fetch_series
  exact mapMEqMapOfForall serieParse anchorToSerie _
    (fun n hn => serieParseOfQualifies n (List.of_mem_filter hn))

/-- The path segment of each format named by the spec's URL rule. -/
def specFormatSegment : SheetFormat → String
  | .PDF => "pdf"
  | .MID => "mid"
  | .MUS => "mus"

/-- The spec's URL rule:
origin, `/download/`, the lowercase format name, the sheet id. -/
def specDownloadUrl (id : Int) (f : SheetFormat) : String :=
  "https://www.ninsheetmusic.org" ++ "/download/" ++ specFormatSegment f ++ "/" ++ intToStr id

/-- C5: `get_download_url` is a pure function of the sheet id and the
format agreeing with the spec's URL rule, and at sheet id 1234 it
yields the three expected URLs for PDF, MID and MUS. -/
theorem c5_download_url :
    (∀ (sh : Sheet) (f : SheetFormat), get_download_url sh f = specDownloadUrl sh.id f)
    ∧ get_download_url ⟨"n", [], 1234⟩ .PDF = "https://www.ninsheetmusic.org/download/pdf/1234"
    ∧ get_download_url ⟨"n", [], 1234⟩ .MID = "https://www.ninsheetmusic.org/download/mid/1234"
    ∧ get_download_url ⟨"n", [], 1234⟩ .MUS
        = "https://www.ninsheetmusic.org/download/mus/1234" := by
  refine ⟨?_, by decide, by decide, by decide⟩
  intro sh f
  cases f <;> rfl

/-! ## Claim theorems (entity decoding and arrangers) -/

/-- A sheet row whose raw title text carries an HTML entity. -/
def c6Li : HNode :=
  .elem "li" [("id", some "sheet1234")]
    (.cons (.elem "div" [("class", some "tableList-cell--sheetTitle")]
      (.cons (.text "Zelda &amp; Friends") .nil))
    (.cons (.elem "div" [("class", some "tableList-cell--sheetArranger")]
      (.cons (.elem "a" [("href", some "/u")] (.cons (.text "John") .nil)) .nil)) .nil))

/-- C6: every text field stored in the data model passes through the
entity decoder first — the series name, the game name and system, the
sheet title and every arranger string — and on the concrete row whose
raw title is `Zelda &amp; Friends` the stored name is
`Zelda & Friends` and the persisted file name is the sanitized form of
the decoded string, not of the raw entity-encoded one. -/
theorem c6_entity_decoding :
    (∀ (t : String) (attrs : List (String × Option String)) (cs : HForest) (sr : Serie),
        serieParse (.elem t attrs cs) = some sr →
        sr.name = decodeHtmlEntities (innerTexts cs))
    ∧ (∀ (sec : HNode) (g : Game), gameParse sec = some g →
        ∃ h3El consoleA sys,
          (elemQuery sec (.tagOnly "h3")).head? = some h3El
          ∧ (elemQuery sec (.tagAttr "a" "title")).head? = some consoleA
          ∧ (getAttrRaw (attrsOf consoleA) "title").join = some sys
          ∧ g.name = decodeHtmlEntities (innerText h3El)
          ∧ g.system = decodeHtmlEntities sys)
    ∧ (∀ (li : HNode) (sh : Sheet), sheetParse li = some sh →
        ∃ titleEl arrEl,
          (elemQuery li (.tagClass "div" "tableList-cell--sheetTitle")).head? = some titleEl
          ∧ sh.name = decodeHtmlEntities (innerText titleEl)
          ∧ (elemQuery li (.tagClass "div" "tableList-cell--sheetArranger")).head? = some arrEl
          ∧ sh.arrangers = (elemQuery arrEl (.tagAttr "a" "href")).map
              (fun a => decodeHtmlEntities (innerText a)))
    ∧ decodeHtmlEntities "Zelda &amp; Friends" = "Zelda & Friends"
    ∧ sheetParse c6Li = some ⟨"Zelda & Friends", ["John"], 1234⟩
    ∧ sheetFileName ⟨"Zelda & Friends", ["John"], 1234⟩ .PDF
        = sanitize "Zelda & Friends" ++ ".pdf"
    ∧ sheetFileName ⟨"Zelda & Friends", ["John"], 1234⟩ .PDF
        ≠ sanitize "Zelda &amp; Friends" ++ ".pdf" := by
  refine ⟨?_, ?_, ?_, by decide, by decide, by decide, by decide⟩
  · intro t attrs cs sr h
    unfold serieParse at h
    rcases Option.map_eq_some'.mp h with ⟨href, hh, hsr⟩
    rw [← hsr]
  · intro sec g h
    rcases gameParseDecomp sec g h with ⟨h3El, ca, sys, h1, h2, h3, h4, h5, _⟩
    exact ⟨h3El, ca, sys, h1, h2, h3, h4, h5⟩
  · intro li sh h
    rcases sheetParseDecomp li sh h with ⟨v, tEl, aEl, _, _, ht, ha, hn, harr⟩
    exact ⟨tEl, aEl, ht, hn, ha, harr⟩

/-- Witness for C6 at the concrete row `c6Li`. -/
theorem c6_witness :
    sheetParse c6Li = some ⟨"Zelda & Friends", ["John"], 1234⟩
    ∧ ∃ titleEl arrEl,
        (elemQuery c6Li (.tagClass "div" "tableList-cell--sheetTitle")).head? = some titleEl
        ∧ (Sheet.mk "Zelda & Friends" ["John"] 1234).name
            = decodeHtmlEntities (innerText titleEl)
        ∧ (elemQuery c6Li (.tagClass "div" "tableList-cell--sheetArranger")).head? = some arrEl
        ∧ (Sheet.mk "Zelda & Friends" ["John"] 1234).arrangers
            = (elemQuery arrEl (.tagAttr "a" "href")).map
                (fun a => decodeHtmlEntities (innerText a)) :=
  ⟨by decide,
   c6_entity_decoding.2.2.1 c6Li ⟨"Zelda & Friends", ["John"], 1234⟩ (by decide)⟩

/-- An arranger cell holding one anchor without an href attribute and
one with an href attribute. -/
def c9ArrCell : HNode :=
  .elem "div" [("class", some "tableList-cell--sheetArranger")]
    (.cons (.elem "a" [("name", some "anchor")] (.cons (.text "Nameless") .nil))
    (.cons (.elem "a" [("href", some "/u")] (.cons (.text "John") .nil)) .nil))

/-- A sheet row whose arranger cell is `c9ArrCell`. -/
def c9Li : HNode :=
  .elem "li" [("id", some "sheet10")]
    (.cons (.elem "div" [("class", some "tableList-cell--sheetTitle")]
      (.cons (.text "T") .nil))
    (.cons c9ArrCell .nil))

/-- A sheet row with an arranger cell holding no anchors at all. -/
def c9EmptyLi : HNode :=
  .elem "li" [("id", some "sheet11")]
    (.cons (.elem "div" [("class", some "tableList-cell--sheetTitle")]
      (.cons (.text "U") .nil))
    (.cons (.elem "div" [("class", some "tableList-cell--sheetArranger")] .nil) .nil))

/-- C9 counterexample: the claim says the stored arranger list is the
decoded inner text of EVERY anchor inside the arranger cell; on `c9Li`
the cell holds two anchors (`Nameless`, without href, and `John`, with
href) but the code stores only `["John"]` — the source selects
`a[href]`, not `a`. -/
theorem c9_counterexample_anchor_without_href :
    sheetParse c9Li = some ⟨"T", ["John"], 10⟩
    ∧ (elemQuery c9ArrCell (.tagOnly "a")).map (fun a => decodeHtmlEntities (innerText a))
        = ["Nameless", "John"]
    ∧ (["John"] : List String) ≠ ["Nameless", "John"] :=
  ⟨by decide, by decide, by decide⟩

/-- C9 (amended): the stored arranger list is the decoded inner text
of every anchor carrying an `href` attribute inside the first arranger
cell, preserving document order, and an empty arranger list is a valid
result (no error for a sheet without listed arrangers). -/
theorem c9_amended_arrangers_href_anchors :
    (∀ (li : HNode) (sh : Sheet), sheetParse li = some sh →
        ∃ arrEl,
          (elemQuery li (.tagClass "div" "tableList-cell--sheetArranger")).head? = some arrEl
          ∧ sh.arrangers = (elemQuery arrEl (.tagAttr "a" "href")).map
              (fun a => decodeHtmlEntities (innerText a)))
    ∧ sheetParse c9EmptyLi = some ⟨"U", [], 11⟩ := by
  refine ⟨?_, by decide⟩
  intro li sh h
  rcases sheetParseDecomp li sh h with ⟨v, tEl, aEl, _, _, _, ha, _, harr⟩
  exact ⟨aEl, ha, harr⟩

/-- Witness for C9 (amended) at the concrete row `c9Li`. -/
theorem c9_amended_witness :
    sheetParse c9Li = some ⟨"T", ["John"], 10⟩
    ∧ ∃ arrEl,
        (elemQuery c9Li (.tagClass "div" "tableList-cell--sheetArranger")).head? = some arrEl
        ∧ (Sheet.mk "T" ["John"] 10).arrangers
            = (elemQuery arrEl (.tagAttr "a" "href")).map
                (fun a => decodeHtmlEntities (innerText a)) :=
  ⟨by decide, c9_amended_arrangers_href_anchors.1 c9Li ⟨"T", ["John"], 10⟩ (by decide)⟩

/-! ## Claim theorems (error propagation and the download routine) -/

theorem mapMNoneOfMem {α β : Type} (f : α → Option β) :
    ∀ (l : List α) (x : α), x ∈ l → f x = none → l.mapM f = none := by
  intro l
  induction l with
  | nil => intro x hx; simp at hx
  | cons hd tl ih =>
      intro x hx hfx
      rw [List.mapM_cons]
      rcases List.mem_cons.mp hx with rfl | hmem
      · rw [hfx]; rfl
      · cases hfh : f hd
        · rfl
        · rw [ih x hmem hfx]; rfl

/-- A root listing page with one qualifying series anchor. -/
def c7RootDoc : HForest :=
  .cons (.elem "a" [("href", some "/browse/series/1")] (.cons (.text "A") .nil)) .nil

/-- C7: any crawl-phase error aborts the run before any download (the
crawl yields no queue) — a network error on the root page, a parse
panic on the root page (`fetch_series` produces nothing), a network
error on any series page, and a parse panic on any series page
(`populateGames` produces nothing, e.g. a game container without an
`h3` heading) are each fatal; a download failure changes only the
worker that hit it (queue, processed log and every other worker are
untouched); and the concrete two-worker run over items `[10, 11]` in
which worker 0's download fails shows the pool completing with item
10 left unprocessed while worker 1 drains and finishes. -/
theorem c7_error_propagation :
    (∀ pageOf : String → Except Unit HForest, runCrawl (.error ()) pageOf = none)
    ∧ (∀ (doc : HForest) (pageOf : String → Except Unit HForest),
        fetch_series doc = none → runCrawl (.ok doc) pageOf = none)
    ∧ (∀ (doc : HForest) (pageOf : String → Except Unit HForest) (series : List Serie)
        (s : Serie), fetch_series doc = some series → s ∈ series →
        pageOf s.url = .error () → runCrawl (.ok doc) pageOf = none)
    ∧ (∀ (doc : HForest) (pageOf : String → Except Unit HForest) (series : List Serie)
        (s : Serie) (page : HForest), fetch_series doc = some series → s ∈ series →
        pageOf s.url = .ok page → populateGames page = none →
        runCrawl (.ok doc) pageOf = none)
    ∧ (∀ (st st' : PState) (i : Nat), PStep st (.dlFail i) st' →
        st'.queue = st.queue ∧ st'.processed = st.processed
          ∧ ∀ j, j ≠ i → st'.workers.get? j = st.workers.get? j)
    ∧ PExec (initState [10, 11] 2) [.recv 0, .recv 1, .dlFail 0, .dl 1, .dl 1, .dl 1, .finish 1]
        ⟨[], [.aborted, .finished], [(11, 3)]⟩
    ∧ allTerminatedB ⟨[], [.aborted, .finished], [(11, 3)]⟩ = true
    ∧ (10 : Int) ∉ ([((11 : Int), 3)].map Prod.fst) := by
  refine ⟨fun _ => rfl, ?_, ?_, ?_, ?_, ?_, by decide, by decide⟩
  · intro doc pageOf hnone
    simp only [runCrawl, hnone]
  · intro doc pageOf series s hfetch hmem herr
    simp only [runCrawl, hfetch]
    rw [mapMNoneOfMem _ series s hmem (by rw [herr])]
    rfl
  · intro doc pageOf series s page hfetch hmem hok hpg
    simp only [runCrawl, hfetch]
    rw [mapMNoneOfMem _ series s hmem (by simp only [hok, hpg]; rfl)]
    rfl
  · intro st st' i h
    cases h with
    | dlFail i it k q ws ps hw hk =>
        exact ⟨rfl, rfl, fun j hj => List.get?_set_ne _ _ (fun he => hj he.symm)⟩
  · refine PExec.cons (PStep.recv 0 10 [11] [.waiting, .waiting] [] (by decide)) ?_
    refine PExec.cons (PStep.recv 1 11 [] [.working 10 0, .waiting] [] (by decide)) ?_
    refine PExec.cons
      (PStep.dlFail 0 10 0 [] [.working 10 0, .working 11 0] [] (by decide) (by decide)) ?_
    refine PExec.cons
      (PStep.dl 1 11 0 [] [.aborted, .working 11 0] [] (by decide) (by decide)) ?_
    refine PExec.cons
      (PStep.dl 1 11 1 [] [.aborted, .working 11 1] [] (by decide) (by decide)) ?_
    refine PExec.cons
      (PStep.dl 1 11 2 [] [.aborted, .working 11 2] [] (by decide) (by decide)) ?_
    refine PExec.cons (PStep.finish 1 11 [] [.aborted, .working 11 3] [] (by decide)) ?_
    exact PExec.nil _

/-- A series page whose single game container has no `h3` heading, so
`Game::parse` panics and `populateGames` produces nothing. -/
def c7BadSeriePage : HForest :=
  .cons (.elem "div" [("class", some "game")] .nil) .nil

/-- Witness for C7: the crawl aborts when the single series page of
`c7RootDoc` is unreachable, aborts likewise when that page fetches but
fails to parse (`c7BadSeriePage`), and a failing download step leaves
the other worker untouched. -/
theorem c7_witness :
    runCrawl (.ok c7RootDoc) (fun _ => Except.error ()) = none
    ∧ populateGames c7BadSeriePage = none
    ∧ runCrawl (.ok c7RootDoc) (fun _ => Except.ok c7BadSeriePage) = none
    ∧ (PState.mk [] [.aborted, .working 11 0] []).workers.get? 1
        = (PState.mk [] [.working 10 0, .working 11 0] []).workers.get? 1 := by
  have h1 := c7_error_propagation.2.2.1 c7RootDoc (fun _ => .error ())
    [⟨"A", "https://www.ninsheetmusic.org/browse/series/1", []⟩]
    ⟨"A", "https://www.ninsheetmusic.org/browse/series/1", []⟩
    (by decide) (by decide) rfl
  have h2 := c7_error_propagation.2.2.2.1 c7RootDoc (fun _ => .ok c7BadSeriePage)
    [⟨"A", "https://www.ninsheetmusic.org/browse/series/1", []⟩]
    ⟨"A", "https://www.ninsheetmusic.org/browse/series/1", []⟩
    c7BadSeriePage (by decide) (by decide) rfl (by decide)
  have hstep : PStep ⟨[], [.working 10 0, .working 11 0], []⟩ (.dlFail 0)
      ⟨[], [.aborted, .working 11 0], []⟩ :=
    PStep.dlFail 0 10 0 [] [.working 10 0, .working 11 0] [] (by decide) (by decide)
  exact ⟨h1, by decide, h2,
    (c7_error_propagation.2.2.2.2.1 _ _ 0 hstep).2.2 1 (by decide)⟩

theorem fsReadWriteSame (fs : FileSys) (p : String) (b : List UInt8) :
    fsRead (fsWrite fs p b) p = some b := by
  simp [fsRead, fsWrite]

theorem fsReadWriteOther (fs : FileSys) (p q : String) (b : List UInt8) (h : q ≠ p) :
    fsRead (fsWrite fs p b) q = fsRead fs q := by
  simp only [fsRead, fsWrite, List.find?_cons]
  rw [show (p == q) = false from beq_eq_false_iff_ne.mpr (fun he => h he.symm)]

theorem stringAppendCancel (a b c : String) (h : a ++ b = a ++ c) : b = c := by
  have hd := congrArg String.data h
  rw [String.data_append, String.data_append] at hd
  exact String.ext (List.append_cancel_left hd)

theorem pathJoinInj (d f1 f2 : String) (h : pathJoin d f1 = pathJoin d f2) : f1 = f2 := by
  unfold pathJoin at h
  by_cases hc : (d.data.getLast? == some '/') = true
  · rw [if_pos hc, if_pos hc] at h
    exact stringAppendCancel d f1 f2 h
  · rw [if_neg hc, if_neg hc] at h
    exact stringAppendCancel (d ++ "/") f1 f2 h

theorem fileNameInj (sh : Sheet) (f g : SheetFormat)
    (h : sheetFileName sh f = sheetFileName sh g) : f = g := by
  unfold sheetFileName at h
  have h2 := stringAppendCancel (sanitize sh.name ++ ".") _ _ h
  revert h2
  cases f <;> cases g <;> decide

/-- C8: processing one work-item writes, for each of the three formats,
the full response body to `<folder>/<sanitized name>.<lowercase
format>` (create-or-truncate), touching no other path; and in the pool,
a worker takes a new item only from the blocked-receive state, and a
worker holding an item returns to receiving only through the
end-of-format-loop step after all `formatCount` downloads — so the
three downloads of an item complete before the worker takes another. -/
theorem c8_download_write_and_per_item_sequencing :
    (∀ (fs : FileSys) (folder : String) (sh : Sheet) (bodies : SheetFormat → List UInt8)
        (f : SheetFormat),
        fsRead (processItemFS fs folder sh bodies) (pathJoin folder (sheetFileName sh f))
          = some (bodies f))
    ∧ (∀ (fs : FileSys) (folder : String) (sh : Sheet) (bodies : SheetFormat → List UInt8)
        (p : String), (∀ f : SheetFormat, p ≠ pathJoin folder (sheetFileName sh f)) →
        fsRead (processItemFS fs folder sh bodies) p = fsRead fs p)
    ∧ (∀ (st st' : PState) (i : Nat), PStep st (.recv i) st' →
        st.workers.get? i = some .waiting)
    ∧ (∀ (st st' : PState) (i : Nat) (it : Int) (k : Nat) (l : PLabel), PStep st l st' →
        st.workers.get? i = some (.working it k) →
        st'.workers.get? i = some .waiting →
        l = .finish i ∧ k = formatCount) := by
  refine ⟨?_, ?_, ?_, ?_⟩
  · intro fs folder sh bodies f
    have hne : ∀ g1 g2 : SheetFormat, g1 ≠ g2 →
        pathJoin folder (sheetFileName sh g1) ≠ pathJoin folder (sheetFileName sh g2) :=
      fun g1 g2 hgg heq => hgg (fileNameInj sh g1 g2 (pathJoinInj folder _ _ heq))
    show fsRead (sheetDownload (sheetDownload (sheetDownload fs folder sh .PDF (bodies .PDF))
        folder sh .MID (bodies .MID)) folder sh .MUS (bodies .MUS)) _ = _
    unfold sheetDownload
    cases f
    · rw [fsReadWriteOther _ _ _ _ (hne .PDF .MUS (by decide)),
        fsReadWriteOther _ _ _ _ (hne .PDF .MID (by decide)),
        fsReadWriteSame]
    · rw [fsReadWriteOther _ _ _ _ (hne .MID .MUS (by decide)), fsReadWriteSame]
    · rw [fsReadWriteSame]
  · intro fs folder sh bodies p hp
    show fsRead (sheetDownload (sheetDownload (sheetDownload fs folder sh .PDF (bodies .PDF))
        folder sh .MID (bodies .MID)) folder sh .MUS (bodies .MUS)) p = fsRead fs p
    unfold sheetDownload
    rw [fsReadWriteOther _ _ _ _ (hp .MUS), fsReadWriteOther _ _ _ _ (hp .MID),
      fsReadWriteOther _ _ _ _ (hp .PDF)]
  · intro st st' i h
    cases h with
    | recv i it q ws ps hw => exact hw
  · intro st st' i it k l h hwork hwait
    cases h with
    | recv j it0 q ws ps hw =>
        by_cases hij : j = i
        · subst hij
          rw [hw] at hwork
          exact absurd hwork (by simp)
        · rw [List.get?_set_ne _ _ hij] at hwait
          rw [hwork] at hwait
          exact absurd hwait (by simp)
    | dl j it0 k0 q ws ps hw hk =>
        by_cases hij : j = i
        · subst hij
          rw [List.get?_set_eq] at hwait
          rw [hwork] at hwait
          exact absurd hwait (by simp)
        · rw [List.get?_set_ne _ _ hij] at hwait
          rw [hwork] at hwait
          exact absurd hwait (by simp)
    | dlFail j it0 k0 q ws ps hw hk =>
        by_cases hij : j = i
        · subst hij
          rw [List.get?_set_eq] at hwait
          rw [hwork] at hwait
          exact absurd hwait (by simp)
        · rw [List.get?_set_ne _ _ hij] at hwait
          rw [hwork] at hwait
          exact absurd hwait (by simp)
    | finish j it0 q ws ps hw =>
        by_cases hij : j = i
        · subst hij
          rw [hw] at hwork
          injection hwork with hwork
          injection hwork with h1 h2
          exact ⟨rfl, h2.symm⟩
        · rw [List.get?_set_ne _ _ hij] at hwait
          rw [hwork] at hwait
          exact absurd hwait (by simp)

/-- Witness for C8: a concrete write of body `[1, 2]` for the PDF of a
one-sheet item into an empty filesystem, an untouched unrelated path,
and a concrete finish step closing an item after three attempts. -/
theorem c8_witness :
    fsRead (processItemFS [] "./downloads/A/G/" ⟨"S", [], 7⟩ (fun _ => [1, 2]))
        (pathJoin "./downloads/A/G/" (sheetFileName ⟨"S", [], 7⟩ .PDF)) = some [1, 2]
    ∧ fsRead (processItemFS [] "./downloads/A/G/" ⟨"S", [], 7⟩ (fun _ => [1, 2])) "other"
        = fsRead [] "other"
    ∧ ((PLabel.finish 0 = PLabel.finish 0) ∧ 3 = formatCount) := by
  have hstep : PStep ⟨[1], [.working 7 3], []⟩ (.finish 0) ⟨[1], [.waiting], [(7, 3)]⟩ :=
    PStep.finish 0 7 [1] [.working 7 3] [] (by decide)
  exact ⟨c8_download_write_and_per_item_sequencing.1 [] "./downloads/A/G/" ⟨"S", [], 7⟩
      (fun _ => [1, 2]) .PDF,
    c8_download_write_and_per_item_sequencing.2.1 [] "./downloads/A/G/" ⟨"S", [], 7⟩
      (fun _ => [1, 2]) "other" (by intro f; cases f <;> decide),
    c8_download_write_and_per_item_sequencing.2.2.2 _ _ 0 7 3 (.finish 0) hstep
      (by decide) (by decide)⟩
